import Mathlib

/-!
Verification of the `SimpleVector` dynamic-array container
(`src/simple-vector/simple_vector.h`, with the `ArrayPtr` buffer of
`src/unnamed/part_000` and the second `SimpleVector` copy of
`src/unnamed/part_001`).

The C++ class is shallowly embedded as a record of the three data members
`size_`, `capacity_` and `data_`.  The raw buffer owned by `ArrayPtr` is
modelled as a `List α` whose length is the allocated slot count; a buffer
freshly obtained from `new Type[n]` holds `n` default-constructed elements
(`List.replicate n default`).  Each member function of the class becomes a
function from the record (plus arguments) to a new record; functions that
return a value return it alongside the record.  Iterator arguments and
results are represented by their offset from `begin()`.
-/

/-- The three data members of the C++ class `SimpleVector<Type>`:
`size_`, `capacity_` and the buffer owned by `data_` (an `ArrayPtr<Type>`),
modelled as the list of the `capacity_` allocated slots. -/
structure SimpleVector (α : Type) where
  size : Nat
  capacity : Nat
  data : List α
  deriving DecidableEq, Repr

/-- Writing the range `src` into the buffer `dst` starting at slot `start`,
as `std::copy`/`std::move`/`std::move_backward` do on raw storage (the
source and destination ranges of the C++ calls never produce a result
different from this non-aliasing description). -/
def copyInto {α : Type} (dst : List α) (start : Nat) (src : List α) : List α :=
  dst.take start ++ src ++ dst.drop (start + src.length)

namespace SimpleVector

variable {α : Type} [Inhabited α]

/-- The logical element sequence: slots `[0, size_)` of the buffer. -/
def elems (v : SimpleVector α) : List α :=
  v.data.take v.size

/-- Representation invariant: `size_ ≤ capacity_` and the buffer owned by
`data_` has exactly `capacity_` slots. -/
def WF (v : SimpleVector α) : Prop :=
  v.size ≤ v.capacity ∧ v.data.length = v.capacity

instance (v : SimpleVector α) : Decidable (WF v) := by
  unfold WF; infer_instance

/-- `SimpleVector() noexcept = default;` -/
def defaultCtor (α : Type) [Inhabited α] : SimpleVector α :=
  { size := 0, capacity := 0, data := [] }

/-- `explicit SimpleVector(ReserveProxy proxy)` : size 0, capacity
`proxy.capacity`, freshly allocated buffer. -/
def reserveCtor (α : Type) [Inhabited α] (capacityToReserve : Nat) : SimpleVector α :=
  { size := 0, capacity := capacityToReserve,
    data := List.replicate capacityToReserve default }

/-- `explicit SimpleVector(size_t size)` : allocates `size` slots and fills
`[0, size)` with `Type()`. -/
def fromSize (α : Type) [Inhabited α] (size : Nat) : SimpleVector α :=
  { size := size, capacity := size,
    data := copyInto (List.replicate size default) 0 (List.replicate size default) }

/-- `SimpleVector(size_t size, const Type& value)` : allocates `size` slots
and fills `[0, size)` with `value`. -/
def fromSizeValue (size : Nat) (value : α) : SimpleVector α :=
  { size := size, capacity := size,
    data := copyInto (List.replicate size default) 0 (List.replicate size value) }

/-- `SimpleVector(std::initializer_list<Type> init)` : allocates
`init.size()` slots and copies the list into them. -/
def fromList (init : List α) : SimpleVector α :=
  { size := init.length, capacity := init.length,
    data := copyInto (List.replicate init.length default) 0 init }

/-- `SimpleVector(const SimpleVector& other)` : allocates `other.size_`
slots (capacity is set to the source's size, not its capacity) and copies
`[other.begin(), other.end())` into them. -/
def copyCtor (other : SimpleVector α) : SimpleVector α :=
  { size := other.size, capacity := other.size,
    data := copyInto (List.replicate other.size default) 0 (other.data.take other.size) }

/-- `SimpleVector(SimpleVector&& other) noexcept` : exchanges the source's
size and capacity with `0` and takes the released buffer; the source's
`ArrayPtr` is left null (no slots).  Returns (destination, source after the
move). -/
def moveCtor (other : SimpleVector α) : SimpleVector α × SimpleVector α :=
  ({ size := other.size, capacity := other.capacity, data := other.data },
   { size := 0, capacity := 0, data := [] })

/-- `void Clear() noexcept` : `size_ = 0;`. -/
def Clear (v : SimpleVector α) : SimpleVector α :=
  { v with size := 0 }

/-- `void swap(SimpleVector& other) noexcept` : exchanges buffers, sizes
and capacities.  Returns (this, other) after the exchange. -/
def swap (v other : SimpleVector α) : SimpleVector α × SimpleVector α :=
  (other, v)

/-- `operator=(SimpleVector&& rhs) noexcept` on distinct objects:
`swap(rhs); rhs.Clear();`.  Returns (this, rhs) after the assignment. -/
def moveAssign (lhs rhs : SimpleVector α) : SimpleVector α × SimpleVector α :=
  let s := swap lhs rhs
  (s.1, Clear s.2)

/-- `operator=(const SimpleVector& rhs)` on distinct objects:
`SimpleVector temp(rhs); swap(temp);`.  Returns the new value of `*this`
(`rhs` is untouched). -/
def copyAssign (lhs rhs : SimpleVector α) : SimpleVector α :=
  (swap lhs (copyCtor rhs)).1

/-- `void Reserve(size_t new_capacity)` : if `new_capacity > capacity_`,
allocate a fresh buffer, move `[0, size_)` into it, swap it in and update
`capacity_`; otherwise do nothing. -/
def Reserve (v : SimpleVector α) (newCapacity : Nat) : SimpleVector α :=
  if newCapacity > v.capacity then
    { size := v.size, capacity := newCapacity,
      data := copyInto (List.replicate newCapacity default) 0 (v.data.take v.size) }
  else v

/-- `size_t GetSize() const noexcept`. -/
def GetSize (v : SimpleVector α) : Nat := v.size

/-- `size_t GetCapacity() const noexcept`. -/
def GetCapacity (v : SimpleVector α) : Nat := v.capacity

/-- `bool IsEmpty() const noexcept`. -/
def IsEmpty (v : SimpleVector α) : Bool := v.size == 0

/-- `Type& At(size_t index)` (and its `const` overload): throws
`std::out_of_range("Index out of range")` when `index >= size_`, otherwise
returns `data_[index]`.  The member touches no data member, so the state
component of the result is `v` itself. -/
def At (v : SimpleVector α) (index : Nat) : SimpleVector α × Except String α :=
  if index ≥ v.size then (v, .error "Index out of range")
  else (v, .ok (v.data.getD index default))

/-- `void Resize(size_t new_size)` : truncate when `new_size ≤ size_`;
default-fill `[size_, new_size)` in place when `new_size ≤ capacity_`;
otherwise grow to `max(new_size, capacity_ * 2)`, move the old elements
over, default-fill the remainder. -/
def Resize (v : SimpleVector α) (newSize : Nat) : SimpleVector α :=
  if newSize ≤ v.size then
    { v with size := newSize }
  else if newSize ≤ v.capacity then
    { v with
      size := newSize
      data := copyInto v.data v.size (List.replicate (newSize - v.size) default) }
  else
    let newCapacity := max newSize (v.capacity * 2)
    let newData := copyInto (List.replicate newCapacity default) 0 (v.data.take v.size)
    let newData := copyInto newData v.size (List.replicate (newSize - v.size) default)
    { size := newSize, capacity := newCapacity, data := newData }

/-- `void PushBack(const Type& item)` and `void PushBack(Type&& item)`:
the two overloads differ only in copying versus moving `item` into the
slot, which is indistinguishable on values, so one function models both.
If `size_ >= capacity_`, grow to `capacity_ == 0 ? 1 : capacity_ * 2`,
moving the old elements into the fresh buffer and writing `item` at slot
`size_`; otherwise write `item` in place.  Then `++size_`. -/
def PushBack (v : SimpleVector α) (item : α) : SimpleVector α :=
  if v.size ≥ v.capacity then
    let newCapacity := if v.capacity = 0 then 1 else v.capacity * 2
    let newData := copyInto (List.replicate newCapacity default) 0 (v.data.take v.size)
    let newData := newData.set v.size item
    { size := v.size + 1, capacity := newCapacity, data := newData }
  else
    { v with size := v.size + 1, data := v.data.set v.size item }

/-- `void PopBack() noexcept` : asserts `size_ > 0`, then `--size_`. -/
def PopBack (v : SimpleVector α) : SimpleVector α :=
  { v with size := v.size - 1 }

/-- `InsertImpl(ConstIterator pos, ValueType&& value)` with
`offset = pos - begin()` (both `Insert` overloads forward here; copying
versus moving `value` is indistinguishable on values).  On growth: move
`[0, offset)` into the fresh buffer, write `value` at `offset`, move
`[offset, size_)` after it.  In place: `std::move_backward` shifts
`[offset, size_)` one slot right, then `value` is written at `offset`.
Returns the new state and `begin() + offset` as the offset. -/
def InsertImpl (v : SimpleVector α) (offset : Nat) (value : α) :
    SimpleVector α × Nat :=
  if v.size ≥ v.capacity then
    let newCapacity := if v.capacity = 0 then 1 else v.capacity * 2
    let newData := copyInto (List.replicate newCapacity default) 0 (v.data.take offset)
    let newData := newData.set offset value
    let newData := copyInto newData (offset + 1) ((v.data.take v.size).drop offset)
    ({ size := v.size + 1, capacity := newCapacity, data := newData }, offset)
  else
    let newData := copyInto v.data (offset + 1) ((v.data.take v.size).drop offset)
    let newData := newData.set offset value
    ({ v with size := v.size + 1, data := newData }, offset)

/-- `Iterator Erase(ConstIterator pos)` with `offset = pos - begin()`:
`std::move(data_ + offset + 1, data_ + size_, data_ + offset)`, `--size_`,
returns `begin() + offset`. -/
def Erase (v : SimpleVector α) (offset : Nat) : SimpleVector α × Nat :=
  let newData := copyInto v.data offset ((v.data.take v.size).drop (offset + 1))
  ({ v with size := v.size - 1, data := newData }, offset)

end SimpleVector

/-!
Second copy of the class, from `src/unnamed/part_001`.  It has the same
data members, so it is embedded over the same record type; only the member
functions whose bodies differ from the first copy get genuinely different
definitions (`PushBack` and `InsertImpl` route growth through `Reserve`
there), the rest are textual repetitions of the same bodies.
-/
namespace SV2

variable {α : Type} [Inhabited α]

/-- `part_001` `Reserve` (same body as the first copy's). -/
def Reserve (v : SimpleVector α) (newCapacity : Nat) : SimpleVector α :=
  if newCapacity > v.capacity then
    { size := v.size, capacity := newCapacity,
      data := copyInto (List.replicate newCapacity default) 0 (v.data.take v.size) }
  else v

/-- `part_001` `PushBack` : `if (size_ >= capacity_) Reserve(capacity_ == 0 ?
1 : capacity_ * 2); data_[size_] = item; ++size_;` (both overloads). -/
def PushBack (v : SimpleVector α) (item : α) : SimpleVector α :=
  let v1 := if v.size ≥ v.capacity then
    Reserve v (if v.capacity = 0 then 1 else v.capacity * 2)
  else v
  { v1 with size := v.size + 1, data := v1.data.set v.size item }

/-- `part_001` `InsertImpl` : possible growth through `Reserve`, then
`std::move_backward(begin() + offset, end(), end() + 1)` in the (possibly
fresh) buffer, then the value is written at `offset`; `++size_`; returns
`begin() + offset`. -/
def InsertImpl (v : SimpleVector α) (offset : Nat) (value : α) :
    SimpleVector α × Nat :=
  let v1 := if v.size ≥ v.capacity then
    Reserve v (if v.capacity = 0 then 1 else v.capacity * 2)
  else v
  let newData := copyInto v1.data (offset + 1) ((v1.data.take v.size).drop offset)
  let newData := newData.set offset value
  ({ v1 with size := v.size + 1, data := newData }, offset)

/-- `part_001` `Erase` (same body as the first copy's). -/
def Erase (v : SimpleVector α) (offset : Nat) : SimpleVector α × Nat :=
  let newData := copyInto v.data offset ((v.data.take v.size).drop (offset + 1))
  ({ v with size := v.size - 1, data := newData }, offset)

/-- `part_001` `Resize` (same body as the first copy's). -/
def Resize (v : SimpleVector α) (newSize : Nat) : SimpleVector α :=
  if newSize ≤ v.size then
    { v with size := newSize }
  else if newSize ≤ v.capacity then
    { v with
      size := newSize
      data := copyInto v.data v.size (List.replicate (newSize - v.size) default) }
  else
    let newCapacity := max newSize (v.capacity * 2)
    let newData := copyInto (List.replicate newCapacity default) 0 (v.data.take v.size)
    let newData := copyInto newData v.size (List.replicate (newSize - v.size) default)
    { size := newSize, capacity := newCapacity, data := newData }

/-- `part_001` `Clear` (same body as the first copy's). -/
def Clear (v : SimpleVector α) : SimpleVector α :=
  { v with size := 0 }

/-- `part_001` `PopBack` (same body as the first copy's). -/
def PopBack (v : SimpleVector α) : SimpleVector α :=
  { v with size := v.size - 1 }

/-- `part_001` `At` (same body as the first copy's). -/
def At (v : SimpleVector α) (index : Nat) : SimpleVector α × Except String α :=
  if index ≥ v.size then (v, .error "Index out of range")
  else (v, .ok (v.data.getD index default))

end SV2

/-!
A common trace language over the mutating / observing member functions,
used to state observational equivalence of the two class copies.
-/

/-- One public operation applied to a `SimpleVector`. -/
inductive Op (α : Type) where
  | reserve (n : Nat)
  | resize (n : Nat)
  | clear
  | push (x : α)
  | pop
  | insert (k : Nat) (x : α)
  | erase (k : Nat)
  | atIdx (i : Nat)
  deriving DecidableEq, Repr

/-- The value returned to the caller by one operation. -/
inductive OpResult (α : Type) where
  | void
  | iter (offset : Nat)
  | access (r : Except String α)
  deriving Repr

/-- One step of the first implementation
(`src/simple-vector/simple_vector.h`). -/
def step1 {α : Type} [Inhabited α] (v : SimpleVector α) :
    Op α → SimpleVector α × OpResult α
  | .reserve n => (SimpleVector.Reserve v n, .void)
  | .resize n => (SimpleVector.Resize v n, .void)
  | .clear => (SimpleVector.Clear v, .void)
  | .push x => (SimpleVector.PushBack v x, .void)
  | .pop => (SimpleVector.PopBack v, .void)
  | .insert k x => ((SimpleVector.InsertImpl v k x).1, .iter (SimpleVector.InsertImpl v k x).2)
  | .erase k => ((SimpleVector.Erase v k).1, .iter (SimpleVector.Erase v k).2)
  | .atIdx i => ((SimpleVector.At v i).1, .access (SimpleVector.At v i).2)

/-- One step of the second implementation (`src/unnamed/part_001`). -/
def step2 {α : Type} [Inhabited α] (v : SimpleVector α) :
    Op α → SimpleVector α × OpResult α
  | .reserve n => (SV2.Reserve v n, .void)
  | .resize n => (SV2.Resize v n, .void)
  | .clear => (SV2.Clear v, .void)
  | .push x => (SV2.PushBack v x, .void)
  | .pop => (SV2.PopBack v, .void)
  | .insert k x => ((SV2.InsertImpl v k x).1, .iter (SV2.InsertImpl v k x).2)
  | .erase k => ((SV2.Erase v k).1, .iter (SV2.Erase v k).2)
  | .atIdx i => ((SV2.At v i).1, .access (SV2.At v i).2)

/-- Running a sequence of operations with the first implementation,
collecting each operation's returned value. -/
def run1 {α : Type} [Inhabited α] (v : SimpleVector α) :
    List (Op α) → SimpleVector α × List (OpResult α)
  | [] => (v, [])
  | op :: rest =>
    let s := step1 v op
    let r := run1 s.1 rest
    (r.1, s.2 :: r.2)

/-- Running a sequence of operations with the second implementation. -/
def run2 {α : Type} [Inhabited α] (v : SimpleVector α) :
    List (Op α) → SimpleVector α × List (OpResult α)
  | [] => (v, [])
  | op :: rest =>
    let s := step2 v op
    let r := run2 s.1 rest
    (r.1, s.2 :: r.2)

/-- The operation respects the C++ preconditions in state `v` (`Insert`'s
position lies in `[begin(), end()]`, `Erase`'s in `[begin(), end())`,
`PopBack` requires a nonempty vector; everything else is unrestricted). -/
def validOp {α : Type} (v : SimpleVector α) : Op α → Bool
  | .insert k _ => k ≤ v.size
  | .erase k => k < v.size
  | .pop => 0 < v.size
  | _ => true

/-- Every operation of the trace respects the preconditions in the state
it is applied to (states threaded by the first implementation). -/
def validOps {α : Type} [Inhabited α] (v : SimpleVector α) : List (Op α) → Bool
  | [] => true
  | op :: rest => validOp v op && validOps (step1 v op).1 rest

/-- The states reachable from some constructor of the class by any
sequence of calls to the public mutating members (with each call meeting
its C++ precondition: `PopBack` on a nonempty vector, `Insert` at a
position in `[begin(), end()]`, `Erase` at a position in
`[begin(), end())`). -/
inductive Reachable {α : Type} [Inhabited α] : SimpleVector α → Prop where
  | ctor_default : Reachable (SimpleVector.defaultCtor α)
  | ctor_reserve (n : Nat) : Reachable (SimpleVector.reserveCtor α n)
  | ctor_size (n : Nat) : Reachable (SimpleVector.fromSize α n)
  | ctor_fill (n : Nat) (x : α) : Reachable (SimpleVector.fromSizeValue n x)
  | ctor_list (l : List α) : Reachable (SimpleVector.fromList l)
  | ctor_copy {v : SimpleVector α} : Reachable v → Reachable (SimpleVector.copyCtor v)
  | ctor_move_dst {v : SimpleVector α} : Reachable v →
      Reachable (SimpleVector.moveCtor v).1
  | ctor_move_src {v : SimpleVector α} : Reachable v →
      Reachable (SimpleVector.moveCtor v).2
  | assign_copy {v w : SimpleVector α} : Reachable v → Reachable w →
      Reachable (SimpleVector.copyAssign v w)
  | assign_move_dst {v w : SimpleVector α} : Reachable v → Reachable w →
      Reachable (SimpleVector.moveAssign v w).1
  | assign_move_src {v w : SimpleVector α} : Reachable v → Reachable w →
      Reachable (SimpleVector.moveAssign v w).2
  | op_reserve {v : SimpleVector α} (n : Nat) : Reachable v →
      Reachable (SimpleVector.Reserve v n)
  | op_resize {v : SimpleVector α} (n : Nat) : Reachable v →
      Reachable (SimpleVector.Resize v n)
  | op_clear {v : SimpleVector α} : Reachable v →
      Reachable (SimpleVector.Clear v)
  | op_push {v : SimpleVector α} (x : α) : Reachable v →
      Reachable (SimpleVector.PushBack v x)
  | op_pop {v : SimpleVector α} : Reachable v → 0 < v.size →
      Reachable (SimpleVector.PopBack v)
  | op_insert {v : SimpleVector α} (k : Nat) (x : α) : Reachable v →
      k ≤ v.size → Reachable (SimpleVector.InsertImpl v k x).1
  | op_erase {v : SimpleVector α} (k : Nat) : Reachable v → k < v.size →
      Reachable (SimpleVector.Erase v k).1
  | op_swap_fst {v w : SimpleVector α} : Reachable v → Reachable w →
      Reachable (SimpleVector.swap v w).1
  | op_swap_snd {v w : SimpleVector α} : Reachable v → Reachable w →
      Reachable (SimpleVector.swap v w).2

/-!
Heap-level model of copy construction, used to state buffer independence
of a copy.  The heap is the list of all allocated buffers; a vector holds
the index of its buffer instead of the buffer itself, so aliasing is
expressible: writes through one vector are visible to another exactly when
the two indices agree.
-/

/-- The data members of the class with the buffer replaced by its index
into the allocation heap. -/
structure HSimpleVector where
  size : Nat
  capacity : Nat
  buf : Nat
  deriving DecidableEq, Repr

/-- The buffer a vector's `ArrayPtr` points at. -/
def hdata {α : Type} (h : List (List α)) (v : HSimpleVector) : List α :=
  h.getD v.buf []

/-- The logical element sequence, read through the heap. -/
def helems {α : Type} (h : List (List α)) (v : HSimpleVector) : List α :=
  (hdata h v).take v.size

/-- `SimpleVector(const SimpleVector& other)` at heap level: a fresh
buffer of `other.size_` slots is allocated (a new heap cell), `[0, size_)`
is copied into it, and the copy points at the fresh cell. -/
def hcopyCtor {α : Type} [Inhabited α] (h : List (List α)) (v : HSimpleVector) :
    List (List α) × HSimpleVector :=
  (h ++ [copyInto (List.replicate v.size default) 0 ((hdata h v).take v.size)],
   { size := v.size, capacity := v.size, buf := h.length })

/-- `v[i] = x` : a write through `operator[]`, mutating slot `i` of the
buffer `v` points at. -/
def hsetElem {α : Type} (h : List (List α)) (v : HSimpleVector) (i : Nat) (x : α) :
    List (List α) :=
  h.set v.buf ((hdata h v).set i x)

/-- `PushBack` at heap level: growth allocates a fresh cell and repoints
the vector, the in-place branch writes through the existing buffer. -/
def hpushBack {α : Type} [Inhabited α] (h : List (List α)) (v : HSimpleVector) (item : α) :
    List (List α) × HSimpleVector :=
  if v.size ≥ v.capacity then
    let newCapacity := if v.capacity = 0 then 1 else v.capacity * 2
    let newData := copyInto (List.replicate newCapacity default) 0 ((hdata h v).take v.size)
    let newData := newData.set v.size item
    (h ++ [newData], { size := v.size + 1, capacity := newCapacity, buf := h.length })
  else
    (h.set v.buf ((hdata h v).set v.size item),
     { v with size := v.size + 1 })

/-!  Basic facts about `copyInto`. -/

theorem copyInto_length {α : Type} {dst src : List α} {s : Nat}
    (h : s + src.length ≤ dst.length) : (copyInto dst s src).length = dst.length := by
  simp only [copyInto, List.length_append, List.length_take, List.length_drop]
  omega

theorem copyInto_nil {α : Type} (dst : List α) (s : Nat) :
    copyInto dst s [] = dst := by
  simp [copyInto]

theorem copyInto_zero {α : Type} (dst src : List α) :
    copyInto dst 0 src = src ++ dst.drop src.length := by
  simp [copyInto]

/-- Writing a full-length range at offset 0 replaces the buffer when the
range is at least as long as the buffer. -/
theorem copyInto_zero_of_length_le {α : Type} {dst src : List α}
    (h : dst.length ≤ src.length) : copyInto dst 0 src = src := by
  simp [copyInto, List.drop_eq_nil_of_le h]

/-- Setting the last position of a length-`(k+1)` front segment: the
segment keeps its first `k` entries and ends in the new value. -/
theorem set_take_succ {α : Type} (b : List α) (k : Nat) (x : α) (hk : k < b.length) :
    (b.take (k + 1)).set k x = b.take k ++ [x] := by
  have hlt : k < (b.take (k + 1)).length := by
    simp only [List.length_take]
    omega
  rw [List.set_eq_take_cons_drop x hlt, List.take_take,
    List.drop_eq_nil_of_le (by simp only [List.length_take]; omega)]
  simp [Nat.min_def]


namespace SimpleVector

variable {α : Type} [Inhabited α]

/-!  `PushBack`. -/

theorem pushBack_grow_eq {v : SimpleVector α} (x : α) (hWF : WF v)
    (hg : v.capacity ≤ v.size) :
    PushBack v x =
      ⟨v.size + 1, max 1 (2 * v.capacity),
       v.data ++ x :: List.replicate (max 1 (2 * v.capacity) - v.size - 1) default⟩ := by
  obtain ⟨hsc, hlen⟩ := hWF
  have hsz : v.size = v.capacity := Nat.le_antisymm hsc hg
  unfold PushBack
  rw [if_pos hg]
  have hdl : v.data.take v.size = v.data := List.take_of_length_le (by omega)
  have hncap : (if v.capacity = 0 then 1 else v.capacity * 2) = max 1 (2 * v.capacity) := by
    split <;> omega
  simp only [copyInto, List.take_zero, List.nil_append, Nat.zero_add, hdl,
    List.drop_replicate, hncap]
  congr 1
  rw [List.set_append_right _ _ (by omega)]
  congr 1
  have h0 : v.size - v.data.length = 0 := by omega
  have h2 : max 1 (2 * v.capacity) - v.data.length =
      (max 1 (2 * v.capacity) - v.size - 1) + 1 := by omega
  rw [h0, h2, List.replicate_succ, List.set_cons_zero]

theorem pushBack_stay_eq {v : SimpleVector α} (x : α) (hlt : v.size < v.capacity) :
    PushBack v x = ⟨v.size + 1, v.capacity, v.data.set v.size x⟩ := by
  unfold PushBack
  rw [if_neg (by omega)]

theorem pushBack_size {v : SimpleVector α} (x : α) (hWF : WF v) :
    (PushBack v x).size = v.size + 1 := by
  by_cases hg : v.capacity ≤ v.size
  · rw [pushBack_grow_eq x hWF hg]
  · rw [pushBack_stay_eq x (by omega)]

theorem pushBack_elems {v : SimpleVector α} (x : α) (hWF : WF v) :
    elems (PushBack v x) = elems v ++ [x] := by
  by_cases hg : v.capacity ≤ v.size
  · have hsz : v.size = v.capacity := Nat.le_antisymm hWF.1 hg
    have hlen := hWF.2
    have hdl : v.data.take v.size = v.data := List.take_of_length_le (by omega)
    rw [pushBack_grow_eq x hWF hg]
    simp only [elems, hdl]
    rw [List.take_append_eq_append_take]
    have h1 : v.data.take (v.size + 1) = v.data := List.take_of_length_le (by omega)
    have h2 : v.size + 1 - v.data.length = 1 := by omega
    rw [h1, h2, List.take_succ_cons, List.take_zero]
  · have hlt : v.size < v.capacity := by omega
    have hlen := hWF.2
    rw [pushBack_stay_eq x hlt]
    simp only [elems]
    rw [List.set_eq_take_cons_drop x (by omega), List.take_append_eq_append_take]
    have h1 : (v.data.take v.size).take (v.size + 1) = v.data.take v.size := by
      apply List.take_of_length_le
      simp [List.length_take]
    have h2 : v.size + 1 - (v.data.take v.size).length = 1 := by
      simp only [List.length_take]
      omega
    rw [h1, h2, List.take_succ_cons, List.take_zero]

theorem pushBack_capacity_grow {v : SimpleVector α} (x : α) (hWF : WF v)
    (hg : v.capacity ≤ v.size) :
    (PushBack v x).capacity = max 1 (2 * v.capacity) := by
  rw [pushBack_grow_eq x hWF hg]

theorem pushBack_capacity_stay {v : SimpleVector α} (x : α)
    (hlt : v.size < v.capacity) :
    (PushBack v x).capacity = v.capacity := by
  rw [pushBack_stay_eq x hlt]

theorem WF_pushBack {v : SimpleVector α} (x : α) (hWF : WF v) :
    WF (PushBack v x) := by
  by_cases hg : v.capacity ≤ v.size
  · rw [pushBack_grow_eq x hWF hg]
    have hsz : v.size = v.capacity := Nat.le_antisymm hWF.1 hg
    have hlen := hWF.2
    constructor
    · simp only; omega
    · simp only [List.length_append, List.length_cons, List.length_replicate]
      omega
  · rw [pushBack_stay_eq x (by omega)]
    constructor
    · simp only; omega
    · simp only [List.length_set]
      exact hWF.2

/-!  Shape lemmas for buffers of the form `A ++ x :: R`. -/

theorem take_len_append {β : Type} (A B : List β) (n : Nat) (h : A.length = n) :
    (A ++ B).take n = A := by
  rw [List.take_append_of_le_length (by omega), ← h, List.take_length]

theorem take_succ_shape {β : Type} (A R : List β) (x : β) (k : Nat)
    (hA : A.length = k) : (A ++ x :: R).take (k + 1) = A ++ [x] := by
  rw [List.take_append_eq_append_take, List.take_of_length_le (by omega), hA,
    Nat.add_sub_cancel_left, List.take_succ_cons, List.take_zero]

theorem take_mid_shape {β : Type} (A B C : List β) (x : β) (k n : Nat)
    (hA : A.length = k) (hB : B.length = n) :
    (A ++ x :: (B ++ C)).take (k + n + 1) = A ++ x :: B := by
  rw [List.take_append_eq_append_take, List.take_of_length_le (by omega), hA]
  have h1 : k + n + 1 - k = n + 1 := by omega
  rw [h1, List.take_succ_cons, List.take_append_eq_append_take,
    List.take_of_length_le (by omega), hB, Nat.sub_self, List.take_zero,
    List.append_nil]

theorem drop_shape {β : Type} (A R : List β) (x : β) (k n : Nat)
    (hA : A.length = k) : (A ++ x :: R).drop (k + 1 + n) = R.drop n := by
  rw [List.drop_append_eq_append_drop, List.drop_eq_nil_of_le (by omega), hA]
  have h1 : k + 1 + n - k = n + 1 := by omega
  rw [h1, List.drop_succ_cons, List.nil_append]

/-!  `InsertImpl`. -/

theorem insert_grow_eq {v : SimpleVector α} (k : Nat) (x : α) (hWF : WF v)
    (hk : k ≤ v.size) (hg : v.capacity ≤ v.size) :
    InsertImpl v k x =
      (⟨v.size + 1, max 1 (2 * v.capacity),
        v.data.take k ++ x :: (v.data.drop k ++
          List.replicate (max 1 (2 * v.capacity) - v.size - 1) default)⟩, k) := by
  obtain ⟨hsc, hlen⟩ := hWF
  have hsz : v.size = v.capacity := Nat.le_antisymm hsc hg
  have hncap : (if v.capacity = 0 then 1 else v.capacity * 2) = max 1 (2 * v.capacity) := by
    split <;> omega
  have hM : v.size < max 1 (2 * v.capacity) := by omega
  have hlenk : (v.data.take k).length = k := by
    simp only [List.length_take]
    omega
  have hdl : v.data.take v.size = v.data := List.take_of_length_le (by omega)
  unfold InsertImpl
  rw [if_pos hg]
  simp only [hncap, hdl]
  set M := max 1 (2 * v.capacity) with hMdef
  have e1 : copyInto (List.replicate M default) 0 (v.data.take k) =
      v.data.take k ++ List.replicate (M - k) default := by
    rw [copyInto_zero, hlenk, List.drop_replicate]
  have e2 : (v.data.take k ++ List.replicate (M - k) default).set k x =
      v.data.take k ++ x :: List.replicate (M - k - 1) default := by
    rw [List.set_append_right _ _ (by omega), hlenk, Nat.sub_self]
    have h2 : M - k = (M - k - 1) + 1 := by omega
    rw [h2, List.replicate_succ, List.set_cons_zero, Nat.add_sub_cancel]
  rw [e1, e2]
  have e3 : copyInto (v.data.take k ++ x :: List.replicate (M - k - 1) default)
      (k + 1) (v.data.drop k) =
      v.data.take k ++ x :: (v.data.drop k ++
        List.replicate (M - v.size - 1) default) := by
    unfold copyInto
    rw [take_succ_shape _ _ _ _ hlenk]
    have h4 : k + 1 + (v.data.drop k).length = k + 1 + (v.size - k) := by
      simp only [List.length_drop]
      omega
    rw [h4, drop_shape _ _ _ _ _ hlenk, List.drop_replicate]
    have h5 : M - k - 1 - (v.size - k) = M - v.size - 1 := by omega
    rw [h5]
    simp
  rw [e3]

theorem insert_stay_eq {v : SimpleVector α} (k : Nat) (x : α) (hWF : WF v)
    (hk : k ≤ v.size) (hl : v.size < v.capacity) :
    InsertImpl v k x =
      (⟨v.size + 1, v.capacity,
        v.data.take k ++ x :: ((v.data.take v.size).drop k ++
          v.data.drop (v.size + 1))⟩, k) := by
  obtain ⟨hsc, hlen⟩ := hWF
  have hlenk1 : (v.data.take (k + 1)).length = k + 1 := by
    simp only [List.length_take]
    omega
  have hslice : ((v.data.take v.size).drop k).length = v.size - k := by
    simp only [List.length_drop, List.length_take]
    omega
  unfold InsertImpl
  rw [if_neg (by omega)]
  simp only
  have e1 : copyInto v.data (k + 1) ((v.data.take v.size).drop k) =
      v.data.take (k + 1) ++ ((v.data.take v.size).drop k ++
        v.data.drop (v.size + 1)) := by
    unfold copyInto
    rw [hslice]
    have h4 : k + 1 + (v.size - k) = v.size + 1 := by omega
    rw [h4, List.append_assoc]
  rw [e1, List.set_append_left _ _ (by omega), set_take_succ _ _ _ (by omega)]
  simp

theorem insert_ret (v : SimpleVector α) (k : Nat) (x : α) :
    (InsertImpl v k x).2 = k := by
  unfold InsertImpl
  split <;> rfl

theorem insert_size (v : SimpleVector α) (k : Nat) (x : α) :
    (InsertImpl v k x).1.size = v.size + 1 := by
  unfold InsertImpl
  split <;> rfl

theorem insert_elems {v : SimpleVector α} (k : Nat) (x : α) (hWF : WF v)
    (hk : k ≤ v.size) :
    elems (InsertImpl v k x).1 =
      (elems v).take k ++ x :: (elems v).drop k := by
  have hlen := hWF.2
  have hsc := hWF.1
  have hlenk : (v.data.take k).length = k := by
    simp only [List.length_take]
    omega
  have hsplit : v.size + 1 = k + (v.size - k) + 1 := by omega
  by_cases hg : v.capacity ≤ v.size
  · have hsz : v.size = v.capacity := Nat.le_antisymm hsc hg
    have hdl : v.data.take v.size = v.data := List.take_of_length_le (by omega)
    rw [insert_grow_eq k x hWF hk hg]
    simp only [elems, hdl, hsplit]
    rw [take_mid_shape _ _ _ _ _ _ hlenk (by simp only [List.length_drop]; omega)]
  · rw [insert_stay_eq k x hWF hk (by omega)]
    simp only [elems, hsplit]
    rw [take_mid_shape _ _ _ _ _ _ hlenk
      (by simp only [List.length_drop, List.length_take]; omega)]
    have htt : (v.data.take v.size).take k = v.data.take k := by
      rw [List.take_take]
      congr 1
      omega
    rw [htt]

theorem WF_insert {v : SimpleVector α} (k : Nat) (x : α) (hWF : WF v)
    (hk : k ≤ v.size) :
    WF (InsertImpl v k x).1 := by
  have hlen := hWF.2
  have hsc := hWF.1
  have hlenk : (v.data.take k).length = k := by
    simp only [List.length_take]
    omega
  by_cases hg : v.capacity ≤ v.size
  · have hsz : v.size = v.capacity := Nat.le_antisymm hsc hg
    rw [insert_grow_eq k x hWF hk hg]
    constructor
    · simp only
      omega
    · simp only [List.length_append, List.length_cons, List.length_take,
        List.length_drop, List.length_replicate]
      omega
  · rw [insert_stay_eq k x hWF hk (by omega)]
    constructor
    · simp only
      omega
    · simp only [List.length_append, List.length_cons, List.length_take,
        List.length_drop]
      omega

/-!  `Erase`. -/

theorem take_two_shape {β : Type} (A B C : List β) (k n : Nat)
    (hA : A.length = k) (hB : B.length = n) :
    (A ++ (B ++ C)).take (k + n) = A ++ B := by
  rw [List.take_append_eq_append_take, List.take_of_length_le (by omega), hA,
    Nat.add_sub_cancel_left, List.take_append_eq_append_take,
    List.take_of_length_le (by omega), hB, Nat.sub_self, List.take_zero,
    List.append_nil]

theorem erase_eq {v : SimpleVector α} (k : Nat) (hWF : WF v) (hk : k < v.size) :
    Erase v k =
      (⟨v.size - 1, v.capacity,
        v.data.take k ++ ((v.data.take v.size).drop (k + 1) ++
          v.data.drop (v.size - 1))⟩, k) := by
  obtain ⟨hsc, hlen⟩ := hWF
  have hslice : ((v.data.take v.size).drop (k + 1)).length = v.size - (k + 1) := by
    simp only [List.length_drop, List.length_take]
    omega
  unfold Erase
  simp only [copyInto, Prod.mk.injEq, and_true, hslice]
  have h1 : k + (v.size - (k + 1)) = v.size - 1 := by omega
  rw [h1, List.append_assoc]

theorem erase_size (v : SimpleVector α) (k : Nat) :
    (Erase v k).1.size = v.size - 1 := rfl

theorem erase_capacity (v : SimpleVector α) (k : Nat) :
    (Erase v k).1.capacity = v.capacity := rfl

theorem erase_ret (v : SimpleVector α) (k : Nat) : (Erase v k).2 = k := rfl

theorem erase_elems {v : SimpleVector α} (k : Nat) (hWF : WF v)
    (hk : k < v.size) :
    elems (Erase v k).1 = (elems v).take k ++ (elems v).drop (k + 1) := by
  obtain ⟨hsc, hlen⟩ := hWF
  have hlenk : (v.data.take k).length = k := by
    simp only [List.length_take]
    omega
  rw [erase_eq k ⟨hsc, hlen⟩ hk]
  simp only [elems]
  have hsplit : v.size - 1 = k + (v.size - (k + 1)) := by omega
  rw [hsplit, take_two_shape _ _ _ _ _ hlenk
    (by simp only [List.length_drop, List.length_take]; omega)]
  have htt : (v.data.take v.size).take k = v.data.take k := by
    rw [List.take_take]
    congr 1
    omega
  rw [htt]

theorem WF_erase {v : SimpleVector α} (k : Nat) (hWF : WF v) (hk : k < v.size) :
    WF (Erase v k).1 := by
  obtain ⟨hsc, hlen⟩ := hWF
  rw [erase_eq k ⟨hsc, hlen⟩ hk]
  constructor
  · simp only
    omega
  · simp only [List.length_append, List.length_take, List.length_drop]
    omega

/-!  `Reserve`. -/

theorem reserve_noop {v : SimpleVector α} {n : Nat} (h : n ≤ v.capacity) :
    Reserve v n = v := by
  unfold Reserve
  rw [if_neg (by omega)]

theorem reserve_grow_eq {v : SimpleVector α} {n : Nat} (hWF : WF v)
    (h : v.capacity < n) :
    Reserve v n = ⟨v.size, n, v.data.take v.size ++ List.replicate (n - v.size) default⟩ := by
  obtain ⟨hsc, hlen⟩ := hWF
  have hts : (v.data.take v.size).length = v.size := by
    simp only [List.length_take]
    omega
  unfold Reserve
  rw [if_pos (by omega)]
  rw [copyInto_zero, hts, List.drop_replicate]

theorem reserve_size (v : SimpleVector α) (n : Nat) :
    (Reserve v n).size = v.size := by
  unfold Reserve
  split <;> rfl

theorem reserve_capacity (v : SimpleVector α) (n : Nat) :
    (Reserve v n).capacity = max v.capacity n := by
  unfold Reserve
  split
  · simp only
    omega
  · omega

theorem reserve_elems {v : SimpleVector α} (n : Nat) (hWF : WF v) :
    elems (Reserve v n) = elems v := by
  by_cases h : n ≤ v.capacity
  · rw [reserve_noop h]
  · obtain ⟨hsc, hlen⟩ := hWF
    rw [reserve_grow_eq ⟨hsc, hlen⟩ (by omega)]
    simp only [elems]
    exact take_len_append _ _ _ (by simp only [List.length_take]; omega)

theorem WF_reserve {v : SimpleVector α} (n : Nat) (hWF : WF v) :
    WF (Reserve v n) := by
  by_cases h : n ≤ v.capacity
  · rw [reserve_noop h]
    exact hWF
  · obtain ⟨hsc, hlen⟩ := hWF
    rw [reserve_grow_eq ⟨hsc, hlen⟩ (by omega)]
    constructor
    · simp only
      omega
    · simp only [List.length_append, List.length_take, List.length_replicate]
      omega

/-!  `Resize`. -/

theorem resize_truncate_eq {v : SimpleVector α} {n : Nat} (h : n ≤ v.size) :
    Resize v n = { v with size := n } := by
  unfold Resize
  rw [if_pos h]

theorem resize_inplace_eq {v : SimpleVector α} {n : Nat} (hWF : WF v)
    (h1 : v.size < n) (h2 : n ≤ v.capacity) :
    Resize v n =
      ⟨n, v.capacity,
        v.data.take v.size ++ (List.replicate (n - v.size) default ++
          v.data.drop n)⟩ := by
  obtain ⟨hsc, hlen⟩ := hWF
  unfold Resize
  rw [if_neg (by omega), if_pos h2]
  simp only [copyInto, List.length_replicate, Prod.mk.injEq]
  have hidx : v.size + (n - v.size) = n := by omega
  rw [hidx, List.append_assoc]

theorem resize_grow_eq {v : SimpleVector α} {n : Nat} (hWF : WF v)
    (h : v.capacity < n) :
    Resize v n =
      ⟨n, max n (v.capacity * 2),
        v.data.take v.size ++ (List.replicate (n - v.size) default ++
          List.replicate (max n (v.capacity * 2) - n) default)⟩ := by
  obtain ⟨hsc, hlen⟩ := hWF
  have hts : (v.data.take v.size).length = v.size := by
    simp only [List.length_take]
    omega
  unfold Resize
  rw [if_neg (by omega), if_neg (by omega)]
  simp only
  have e1 : copyInto (List.replicate (max n (v.capacity * 2)) default) 0
      (v.data.take v.size) =
      v.data.take v.size ++ List.replicate (max n (v.capacity * 2) - v.size) default := by
    rw [copyInto_zero, hts, List.drop_replicate]
  rw [e1]
  have e2 : copyInto
      (v.data.take v.size ++ List.replicate (max n (v.capacity * 2) - v.size) default)
      v.size (List.replicate (n - v.size) default) =
      v.data.take v.size ++ (List.replicate (n - v.size) default ++
        List.replicate (max n (v.capacity * 2) - n) default) := by
    unfold copyInto
    rw [take_len_append _ _ _ hts]
    simp only [List.length_replicate]
    have hidx : v.size + (n - v.size) = n := by omega
    rw [hidx, List.drop_append_eq_append_drop, List.drop_eq_nil_of_le (by omega),
      hts, List.drop_replicate, List.nil_append, List.append_assoc]
    have h5 : max n (v.capacity * 2) - v.size - (n - v.size) =
        max n (v.capacity * 2) - n := by omega
    rw [h5]
  rw [e2]

theorem resize_elems_truncate {v : SimpleVector α} (n : Nat) (h : n ≤ v.size) :
    elems (Resize v n) = (elems v).take n := by
  rw [resize_truncate_eq h]
  simp only [elems, List.take_take]
  congr 1
  omega

theorem resize_elems_ext {v : SimpleVector α} (n : Nat) (hWF : WF v)
    (h1 : v.size < n) :
    elems (Resize v n) = elems v ++ List.replicate (n - v.size) default := by
  obtain ⟨hsc, hlen⟩ := hWF
  have hts : (v.data.take v.size).length = v.size := by
    simp only [List.length_take]
    omega
  have hsplit : n = v.size + (n - v.size) := by omega
  by_cases h2 : n ≤ v.capacity
  · rw [resize_inplace_eq ⟨hsc, hlen⟩ h1 h2]
    simp only [elems]
    rw [hsplit, take_two_shape _ _ _ _ _ hts
      (by simp only [List.length_replicate]; omega)]
  · rw [resize_grow_eq ⟨hsc, hlen⟩ (by omega)]
    simp only [elems]
    rw [hsplit, take_two_shape _ _ _ _ _ hts
      (by simp only [List.length_replicate]; omega)]

theorem resize_capacity_le {v : SimpleVector α} (n : Nat) (h : n ≤ v.capacity) :
    (Resize v n).capacity = v.capacity := by
  unfold Resize
  by_cases ha : n ≤ v.size
  · rw [if_pos ha]
  · rw [if_neg ha, if_pos h]

theorem resize_capacity_grow {v : SimpleVector α} (n : Nat) (hWF : WF v)
    (h : v.capacity < n) :
    (Resize v n).capacity = max n (v.capacity * 2) := by
  rw [resize_grow_eq hWF h]

theorem resize_size {v : SimpleVector α} (n : Nat) : (Resize v n).size = n := by
  unfold Resize
  split
  · rfl
  · split <;> rfl

theorem WF_resize {v : SimpleVector α} (n : Nat) (hWF : WF v) :
    WF (Resize v n) := by
  obtain ⟨hsc, hlen⟩ := hWF
  by_cases ha : n ≤ v.size
  · rw [resize_truncate_eq ha]
    constructor
    · show n ≤ v.capacity
      omega
    · show v.data.length = v.capacity
      exact hlen
  · by_cases hb : n ≤ v.capacity
    · rw [resize_inplace_eq ⟨hsc, hlen⟩ (by omega) hb]
      constructor
      · exact hb
      · simp only [List.length_append, List.length_take, List.length_drop,
          List.length_replicate]
        omega
    · rw [resize_grow_eq ⟨hsc, hlen⟩ (by omega)]
      constructor
      · simp only
        omega
      · simp only [List.length_append, List.length_take, List.length_replicate]
        omega

/-!  Constructors and the remaining small members. -/

theorem WF_defaultCtor : WF (defaultCtor α) :=
  ⟨Nat.le_refl 0, rfl⟩

theorem WF_reserveCtor (n : Nat) : WF (reserveCtor α n) :=
  ⟨Nat.zero_le n, List.length_replicate n default⟩

theorem fromSize_eq (n : Nat) :
    fromSize α n = ⟨n, n, List.replicate n default⟩ := by
  unfold fromSize
  rw [copyInto_zero_of_length_le (by simp)]

theorem WF_fromSize (n : Nat) : WF (fromSize α n) := by
  rw [fromSize_eq]
  exact ⟨Nat.le_refl n, List.length_replicate n default⟩

theorem fromSizeValue_eq (n : Nat) (x : α) :
    fromSizeValue n x = ⟨n, n, List.replicate n x⟩ := by
  unfold fromSizeValue
  rw [copyInto_zero_of_length_le (by simp)]

theorem WF_fromSizeValue (n : Nat) (x : α) : WF (fromSizeValue n x) := by
  rw [fromSizeValue_eq]
  exact ⟨Nat.le_refl n, List.length_replicate n x⟩

theorem fromList_eq (init : List α) :
    fromList init = ⟨init.length, init.length, init⟩ := by
  unfold fromList
  rw [copyInto_zero_of_length_le (by simp)]

theorem WF_fromList (init : List α) : WF (fromList init) := by
  rw [fromList_eq]
  exact ⟨Nat.le_refl _, rfl⟩

theorem fromList_elems (init : List α) : elems (fromList init) = init := by
  rw [fromList_eq]
  simp [elems]

theorem copyCtor_eq {v : SimpleVector α} (hWF : WF v) :
    copyCtor v = ⟨v.size, v.size, v.data.take v.size⟩ := by
  obtain ⟨hsc, hlen⟩ := hWF
  have h : (List.replicate v.size (default : α)).length ≤ (v.data.take v.size).length := by
    simp only [List.length_replicate, List.length_take]
    omega
  unfold copyCtor
  rw [copyInto_zero_of_length_le h]

theorem copyCtor_elems {v : SimpleVector α} (hWF : WF v) :
    elems (copyCtor v) = elems v := by
  rw [copyCtor_eq hWF]
  simp only [elems, List.take_take, Nat.min_self]

theorem WF_copyCtor {v : SimpleVector α} (hWF : WF v) : WF (copyCtor v) := by
  have hsc := hWF.1
  have hlen := hWF.2
  rw [copyCtor_eq hWF]
  refine ⟨Nat.le_refl _, ?_⟩
  simp only [List.length_take]
  omega

theorem WF_moveCtor_dst {v : SimpleVector α} (hWF : WF v) :
    WF (moveCtor v).1 := hWF

theorem WF_moveCtor_src (v : SimpleVector α) : WF (moveCtor v).2 :=
  ⟨Nat.le_refl 0, rfl⟩

theorem WF_moveAssign_dst {lhs rhs : SimpleVector α} (hWF : WF rhs) :
    WF (moveAssign lhs rhs).1 := hWF

theorem WF_moveAssign_src {lhs rhs : SimpleVector α} (hWF : WF lhs) :
    WF (moveAssign lhs rhs).2 :=
  ⟨Nat.zero_le _, hWF.2⟩

theorem WF_copyAssign {lhs rhs : SimpleVector α} (hWF : WF rhs) :
    WF (copyAssign lhs rhs) := WF_copyCtor hWF

theorem WF_clear {v : SimpleVector α} (hWF : WF v) : WF (Clear v) :=
  ⟨Nat.zero_le _, hWF.2⟩

theorem WF_popBack {v : SimpleVector α} (hWF : WF v) : WF (PopBack v) :=
  ⟨by have := hWF.1; simp only [PopBack]; omega, hWF.2⟩

theorem WF_swap_fst {v w : SimpleVector α} (hWF : WF w) : WF (swap v w).1 := hWF

theorem WF_swap_snd {v w : SimpleVector α} (hWF : WF v) : WF (swap v w).2 := hWF

end SimpleVector

/-!  `getD` bridges between the buffer and the element sequence. -/

theorem getD_take {β : Type} (l : List β) (n i : Nat) (d : β) (h : i < n) :
    (l.take n).getD i d = l.getD i d := by
  simp [List.getD_eq_getElem?_getD, List.getElem?_take, h]

theorem getD_append_cons {β : Type} (A B : List β) (x d : β) :
    (A ++ x :: B).getD A.length d = x := by
  induction A with
  | nil => rfl
  | cons a A ih => simpa using ih

theorem getD_set_ne {β : Type} (l : List β) (i j : Nat) (b : β) (d : β)
    (h : i ≠ j) : (l.set i b).getD j d = l.getD j d := by
  simp [List.getD_eq_getElem?_getD, List.getElem?_set_ne h]

theorem getD_append_left {β : Type} (l₁ l₂ : List β) (j : Nat) (d : β)
    (h : j < l₁.length) : (l₁ ++ l₂).getD j d = l₁.getD j d := by
  simp [List.getD_eq_getElem?_getD, List.getElem?_append, h]

namespace SimpleVector

variable {α : Type} [Inhabited α]

/-!  `At`. -/

theorem at_lt {v : SimpleVector α} {i : Nat} (h : i < v.size) :
    At v i = (v, .ok ((elems v).getD i default)) := by
  unfold At
  rw [if_neg (by omega)]
  simp only [elems]
  rw [getD_take _ _ _ _ h]

theorem at_ge {v : SimpleVector α} {i : Nat} (h : v.size ≤ i) :
    At v i = (v, .error "Index out of range") := by
  unfold At
  rw [if_pos (by omega)]

theorem at_fst (v : SimpleVector α) (i : Nat) : (At v i).1 = v := by
  unfold At
  split <;> rfl

end SimpleVector

/-!
Pointwise agreement of the two class copies on every public member,
assuming the representation invariant and the C++ preconditions.
-/

theorem sv2_reserve_eq {α : Type} [Inhabited α] (v : SimpleVector α) (n : Nat) :
    SV2.Reserve v n = SimpleVector.Reserve v n := rfl

theorem sv2_erase_eq {α : Type} [Inhabited α] (v : SimpleVector α) (k : Nat) :
    SV2.Erase v k = SimpleVector.Erase v k := rfl

theorem sv2_resize_eq {α : Type} [Inhabited α] (v : SimpleVector α) (n : Nat) :
    SV2.Resize v n = SimpleVector.Resize v n := rfl

theorem sv2_clear_eq {α : Type} [Inhabited α] (v : SimpleVector α) :
    SV2.Clear v = SimpleVector.Clear v := rfl

theorem sv2_popBack_eq {α : Type} [Inhabited α] (v : SimpleVector α) :
    SV2.PopBack v = SimpleVector.PopBack v := rfl

theorem sv2_at_eq {α : Type} [Inhabited α] (v : SimpleVector α) (i : Nat) :
    SV2.At v i = SimpleVector.At v i := rfl

theorem sv2_pushBack_eq {α : Type} [Inhabited α] (v : SimpleVector α) (x : α) :
    SV2.PushBack v x = SimpleVector.PushBack v x := by
  unfold SV2.PushBack SV2.Reserve SimpleVector.PushBack
  by_cases hg : v.size ≥ v.capacity
  · have hgt : (if v.capacity = 0 then 1 else v.capacity * 2) > v.capacity := by
      split <;> omega
    simp only [if_pos hg, if_pos hgt]
  · simp only [if_neg hg]

theorem sv2_insert_grow_eq {α : Type} [Inhabited α] {v : SimpleVector α}
    (k : Nat) (x : α) (hWF : SimpleVector.WF v) (hk : k ≤ v.size)
    (hg : v.capacity ≤ v.size) :
    SV2.InsertImpl v k x =
      (⟨v.size + 1, max 1 (2 * v.capacity),
        v.data.take k ++ x :: (v.data.drop k ++
          List.replicate (max 1 (2 * v.capacity) - v.size - 1) default)⟩, k) := by
  obtain ⟨hsc, hlen⟩ := hWF
  have hsz : v.size = v.capacity := Nat.le_antisymm hsc hg
  have hncap : (if v.capacity = 0 then 1 else v.capacity * 2) = max 1 (2 * v.capacity) := by
    split <;> omega
  have hM : v.size < max 1 (2 * v.capacity) := by omega
  have hdl : v.data.take v.size = v.data := List.take_of_length_le (by omega)
  have hgt : (if v.capacity = 0 then 1 else v.capacity * 2) > v.capacity := by
    split <;> omega
  unfold SV2.InsertImpl SV2.Reserve
  simp only [if_pos hg, if_pos hgt, hncap, hdl]
  set M := max 1 (2 * v.capacity) with hMdef
  have hb : copyInto (List.replicate M default) 0 v.data =
      v.data ++ List.replicate (M - v.size) default := by
    rw [copyInto_zero, List.drop_replicate]
    congr 2
    omega
  rw [hb]
  have hgtM : M > v.capacity := by omega
  simp only [if_pos hgtM]
  have hbtake : (v.data ++ List.replicate (M - v.size) default).take v.size = v.data :=
    SimpleVector.take_len_append _ _ _ (by omega)
  rw [hbtake]
  have hbdrop : (v.data ++ List.replicate (M - v.size) default).drop (v.size + 1) =
      List.replicate (M - v.size - 1) default := by
    rw [List.drop_append_eq_append_drop, List.drop_eq_nil_of_le (by omega),
      List.drop_replicate, List.nil_append]
    congr 1
    omega
  have e1 : copyInto (v.data ++ List.replicate (M - v.size) default) (k + 1)
      (v.data.drop k) =
      (v.data ++ List.replicate (M - v.size) default).take (k + 1) ++
        (v.data.drop k ++ List.replicate (M - v.size - 1) default) := by
    unfold copyInto
    have h4 : k + 1 + (v.data.drop k).length = v.size + 1 := by
      simp only [List.length_drop]
      omega
    rw [h4, hbdrop, List.append_assoc]
  rw [e1]
  have hlt1 : k < ((v.data ++ List.replicate (M - v.size) default).take (k + 1)).length := by
    simp only [List.length_take, List.length_append, List.length_replicate]
    omega
  have hlt2 : k < (v.data ++ List.replicate (M - v.size) default).length := by
    simp only [List.length_append, List.length_replicate]
    omega
  rw [List.set_append_left _ _ hlt1, set_take_succ _ _ _ hlt2,
    List.take_append_of_le_length (by omega)]
  simp

theorem sv2_insert_eq {α : Type} [Inhabited α] (v : SimpleVector α)
    (k : Nat) (x : α) (hWF : SimpleVector.WF v) (hk : k ≤ v.size) :
    SV2.InsertImpl v k x = SimpleVector.InsertImpl v k x := by
  by_cases hg : v.capacity ≤ v.size
  · rw [sv2_insert_grow_eq k x hWF hk hg,
      SimpleVector.insert_grow_eq k x hWF hk hg]
  · unfold SV2.InsertImpl SimpleVector.InsertImpl
    simp only [if_neg (show ¬v.size ≥ v.capacity by omega)]

theorem step2_eq_step1 {α : Type} [Inhabited α] (v : SimpleVector α)
    (op : Op α) (hWF : SimpleVector.WF v) (hval : validOp v op = true) :
    step2 v op = step1 v op := by
  cases op with
  | reserve n => rfl
  | resize n => rfl
  | clear => rfl
  | push x => simp only [step1, step2, sv2_pushBack_eq]
  | pop => rfl
  | insert k x =>
    have hk : k ≤ v.size := by simpa [validOp] using hval
    simp only [step1, step2, sv2_insert_eq v k x hWF hk]
  | erase k => rfl
  | atIdx i => rfl

theorem WF_step1 {α : Type} [Inhabited α] (v : SimpleVector α) (op : Op α)
    (hWF : SimpleVector.WF v) (hval : validOp v op = true) :
    SimpleVector.WF (step1 v op).1 := by
  cases op with
  | reserve n => exact SimpleVector.WF_reserve n hWF
  | resize n => exact SimpleVector.WF_resize n hWF
  | clear => exact SimpleVector.WF_clear hWF
  | push x => exact SimpleVector.WF_pushBack x hWF
  | pop => exact SimpleVector.WF_popBack hWF
  | insert k x =>
    exact SimpleVector.WF_insert k x hWF (by simpa [validOp] using hval)
  | erase k =>
    exact SimpleVector.WF_erase k hWF (by simpa [validOp] using hval)
  | atIdx i =>
    simpa [step1, SimpleVector.at_fst] using hWF

theorem run2_eq_run1 {α : Type} [Inhabited α] (ops : List (Op α))
    (v : SimpleVector α) (hWF : SimpleVector.WF v)
    (hvalid : validOps v ops = true) : run2 v ops = run1 v ops := by
  induction ops generalizing v with
  | nil => rfl
  | cons op rest ih =>
    have hsplit : validOp v op = true ∧ validOps (step1 v op).1 rest = true := by
      simpa [validOps, Bool.and_eq_true] using hvalid
    simp only [run1, run2]
    rw [step2_eq_step1 v op hWF hsplit.1,
      ih (step1 v op).1 (WF_step1 v op hWF hsplit.1) hsplit.2]

/-!  Heap-level facts used for the independence of a copy. -/

theorem hcopyCtor_buf_fresh {α : Type} [Inhabited α] (h : List (List α))
    (v : HSimpleVector) : (hcopyCtor h v).2.buf = h.length := rfl

theorem hdata_hcopyCtor {α : Type} [Inhabited α] (h : List (List α))
    (v : HSimpleVector) (hsz : v.size ≤ (hdata h v).length) :
    hdata (hcopyCtor h v).1 (hcopyCtor h v).2 = (hdata h v).take v.size := by
  have hsz' : v.size ≤ (h.getD v.buf []).length := hsz
  unfold hcopyCtor hdata
  simp only
  rw [copyInto_zero_of_length_le (by simp only [List.length_replicate,
    List.length_take]
                                     omega)]
  exact getD_append_cons _ _ _ _

theorem helems_hcopyCtor {α : Type} [Inhabited α] (h : List (List α))
    (v : HSimpleVector) (hsz : v.size ≤ (hdata h v).length) :
    helems (hcopyCtor h v).1 (hcopyCtor h v).2 = helems h v := by
  unfold helems
  rw [hdata_hcopyCtor h v hsz]
  simp [List.take_take, hcopyCtor]

theorem helems_after_append {α : Type} (h : List (List α)) (b : List α)
    (v : HSimpleVector) (hbuf : v.buf < h.length) :
    helems (h ++ [b]) v = helems h v := by
  unfold helems hdata
  rw [getD_append_left _ _ _ _ hbuf]

theorem helems_after_set {α : Type} (h : List (List α)) (j : Nat) (b : List α)
    (v : HSimpleVector) (hne : j ≠ v.buf) :
    helems (h.set j b) v = helems h v := by
  unfold helems hdata
  rw [getD_set_ne _ _ _ _ _ hne]

theorem elems_length {α : Type} [Inhabited α] {v : SimpleVector α}
    (hWF : SimpleVector.WF v) : (SimpleVector.elems v).length = v.size := by
  have hlen := hWF.2
  have hsc := hWF.1
  simp only [SimpleVector.elems, List.length_take]
  omega

/-!
The claims.
-/

/-- Claim C1, counterexample to the statement as written: move-assigning
the empty vector into a destination of capacity 1 leaves the source with
size 0 but capacity 1, so the source does not end with
`size == 0 && capacity == 0`. -/
theorem C1_counterexample :
    ¬ ((SimpleVector.moveAssign
          (SimpleVector.PushBack (SimpleVector.defaultCtor Nat) 0)
          (SimpleVector.defaultCtor Nat)).2.size = 0 ∧
       (SimpleVector.moveAssign
          (SimpleVector.PushBack (SimpleVector.defaultCtor Nat) 0)
          (SimpleVector.defaultCtor Nat)).2.capacity = 0) := by
  decide

/-- Claim C1 (amended): after move-construction the source is left with
`size == 0` and `capacity == 0`; after move-assignment the source is left
valid and empty (`size == 0`) but its capacity becomes the destination's
pre-assignment capacity (the implementation swaps and then only clears the
size).  In both cases the destination holds exactly the elements the
source held before the move, in order. -/
theorem C1_move_spec {α : Type} [Inhabited α] (dst src : SimpleVector α) :
    (SimpleVector.moveCtor src).2.size = 0 ∧
    (SimpleVector.moveCtor src).2.capacity = 0 ∧
    SimpleVector.elems (SimpleVector.moveCtor src).1 = SimpleVector.elems src ∧
    (SimpleVector.moveAssign dst src).2.size = 0 ∧
    (SimpleVector.moveAssign dst src).2.capacity = dst.capacity ∧
    SimpleVector.elems (SimpleVector.moveAssign dst src).1 =
      SimpleVector.elems src :=
  ⟨rfl, rfl, rfl, rfl, rfl, rfl⟩

/-- Claim C2: `PushBack` increases the size by exactly 1, appends the
pushed value after the unchanged prior elements (so the element at index
`size - 1` of the new vector is the pushed value, as `At` confirms), and
changes the capacity only when `size` equalled `capacity` before the push,
in which case the new capacity is `max(1, 2 * old capacity)`; the capacity
never decreases. -/
theorem C2_pushBack_spec {α : Type} [Inhabited α] (v : SimpleVector α)
    (x : α) (hWF : SimpleVector.WF v) :
    (SimpleVector.PushBack v x).size = v.size + 1 ∧
    SimpleVector.elems (SimpleVector.PushBack v x) =
      SimpleVector.elems v ++ [x] ∧
    (v.size = v.capacity →
      (SimpleVector.PushBack v x).capacity = max 1 (2 * v.capacity)) ∧
    (v.size ≠ v.capacity →
      (SimpleVector.PushBack v x).capacity = v.capacity) ∧
    v.capacity ≤ (SimpleVector.PushBack v x).capacity ∧
    (SimpleVector.At (SimpleVector.PushBack v x) v.size).2 = Except.ok x := by
  have hsc := hWF.1
  refine ⟨SimpleVector.pushBack_size x hWF, SimpleVector.pushBack_elems x hWF,
    ?_, ?_, ?_, ?_⟩
  · intro he
    exact SimpleVector.pushBack_capacity_grow x hWF (by omega)
  · intro hne
    exact SimpleVector.pushBack_capacity_stay x (by omega)
  · by_cases hg : v.capacity ≤ v.size
    · rw [SimpleVector.pushBack_capacity_grow x hWF hg]
      omega
    · rw [SimpleVector.pushBack_capacity_stay x (by omega)]
  · have hlt : v.size < (SimpleVector.PushBack v x).size := by
      rw [SimpleVector.pushBack_size x hWF]
      omega
    rw [SimpleVector.at_lt hlt]
    simp only
    rw [SimpleVector.pushBack_elems x hWF]
    have hA : v.size = (SimpleVector.elems v).length := (elems_length hWF).symm
    rw [hA]
    have hgd := getD_append_cons (SimpleVector.elems v) ([] : List α) x default
    simp only [List.append_nil] at hgd
    rw [hgd]

/-- Claim C2, witness at a concrete input: pushing `7` onto the full
two-element vector `{5, 6}`. -/
theorem C2_pushBack_witness :
    SimpleVector.WF (SimpleVector.fromList [5, 6]) ∧
    ((SimpleVector.PushBack (SimpleVector.fromList [5, 6]) 7).size =
        (SimpleVector.fromList [5, 6]).size + 1 ∧
      SimpleVector.elems (SimpleVector.PushBack (SimpleVector.fromList [5, 6]) 7) =
        SimpleVector.elems (SimpleVector.fromList [5, 6]) ++ [7] ∧
      ((SimpleVector.fromList [5, 6]).size = (SimpleVector.fromList [5, 6]).capacity →
        (SimpleVector.PushBack (SimpleVector.fromList [5, 6]) 7).capacity =
          max 1 (2 * (SimpleVector.fromList [5, 6]).capacity)) ∧
      ((SimpleVector.fromList [5, 6]).size ≠ (SimpleVector.fromList [5, 6]).capacity →
        (SimpleVector.PushBack (SimpleVector.fromList [5, 6]) 7).capacity =
          (SimpleVector.fromList [5, 6]).capacity) ∧
      (SimpleVector.fromList [5, 6]).capacity ≤
        (SimpleVector.PushBack (SimpleVector.fromList [5, 6]) 7).capacity ∧
      (SimpleVector.At (SimpleVector.PushBack (SimpleVector.fromList [5, 6]) 7)
          (SimpleVector.fromList [5, 6]).size).2 = Except.ok 7) :=
  ⟨by decide, C2_pushBack_spec (SimpleVector.fromList [5, 6]) 7 (by decide)⟩

/-- Claim C3: `Insert` at offset `k ≤ N` on a vector of size `N` yields a
vector of size `N + 1` whose first `k` elements are the original first `k`
elements, whose element at index `k` is the inserted value, and whose
remaining elements are the original elements from `k` on; the returned
iterator is `begin() + k`, which refers to the inserted element. -/
theorem C3_insert_spec {α : Type} [Inhabited α] (v : SimpleVector α)
    (k : Nat) (x : α) (hWF : SimpleVector.WF v) (hk : k ≤ v.size) :
    (SimpleVector.InsertImpl v k x).1.size = v.size + 1 ∧
    SimpleVector.elems (SimpleVector.InsertImpl v k x).1 =
      (SimpleVector.elems v).take k ++ x :: (SimpleVector.elems v).drop k ∧
    (SimpleVector.elems (SimpleVector.InsertImpl v k x).1).getD k default = x ∧
    (SimpleVector.InsertImpl v k x).2 = k := by
  refine ⟨SimpleVector.insert_size v k x, SimpleVector.insert_elems k x hWF hk,
    ?_, SimpleVector.insert_ret v k x⟩
  rw [SimpleVector.insert_elems k x hWF hk]
  have hA : ((SimpleVector.elems v).take k).length = k := by
    simp only [List.length_take]
    rw [elems_length hWF]
    omega
  have hgd := getD_append_cons ((SimpleVector.elems v).take k)
    ((SimpleVector.elems v).drop k) x default
  rw [hA] at hgd
  exact hgd

/-- Claim C3, witness at a concrete input: inserting `9` at offset 1 of
`{1, 2, 3}`. -/
theorem C3_insert_witness :
    SimpleVector.WF (SimpleVector.fromList [1, 2, 3]) ∧
    1 ≤ (SimpleVector.fromList [1, 2, 3]).size ∧
    ((SimpleVector.InsertImpl (SimpleVector.fromList [1, 2, 3]) 1 9).1.size =
        (SimpleVector.fromList [1, 2, 3]).size + 1 ∧
      SimpleVector.elems (SimpleVector.InsertImpl (SimpleVector.fromList [1, 2, 3]) 1 9).1 =
        (SimpleVector.elems (SimpleVector.fromList [1, 2, 3])).take 1 ++
          9 :: (SimpleVector.elems (SimpleVector.fromList [1, 2, 3])).drop 1 ∧
      (SimpleVector.elems
          (SimpleVector.InsertImpl (SimpleVector.fromList [1, 2, 3]) 1 9).1).getD 1
          default = 9 ∧
      (SimpleVector.InsertImpl (SimpleVector.fromList [1, 2, 3]) 1 9).2 = 1) :=
  ⟨by decide, by decide,
    C3_insert_spec (SimpleVector.fromList [1, 2, 3]) 1 9 (by decide) (by decide)⟩

/-- Claim C4: `Erase` at offset `k` is the exact inverse of `Insert` at
offset `k`: inserting any value at offset `k ≤ N` and then erasing at the
same offset reproduces the original element sequence and the original
size. -/
theorem C4_insert_erase_inverse {α : Type} [Inhabited α] (v : SimpleVector α)
    (k : Nat) (x : α) (hWF : SimpleVector.WF v) (hk : k ≤ v.size) :
    (SimpleVector.Erase (SimpleVector.InsertImpl v k x).1 k).1.size = v.size ∧
    SimpleVector.elems (SimpleVector.Erase (SimpleVector.InsertImpl v k x).1 k).1 =
      SimpleVector.elems v := by
  have hWF' := SimpleVector.WF_insert k x hWF hk
  have hklt : k < (SimpleVector.InsertImpl v k x).1.size := by
    rw [SimpleVector.insert_size]
    omega
  constructor
  · rw [SimpleVector.erase_size, SimpleVector.insert_size]
    omega
  · rw [SimpleVector.erase_elems k hWF' hklt,
      SimpleVector.insert_elems k x hWF hk]
    have hA : ((SimpleVector.elems v).take k).length = k := by
      simp only [List.length_take]
      rw [elems_length hWF]
      omega
    rw [SimpleVector.take_len_append _ _ _ hA]
    have hdrop := SimpleVector.drop_shape ((SimpleVector.elems v).take k)
      ((SimpleVector.elems v).drop k) x k 0 hA
    simp only [Nat.add_zero, List.drop_zero] at hdrop
    rw [hdrop, List.take_append_drop]

/-- Claim C4, witness at a concrete input: inserting `9` at offset 1 of
`{1, 2, 3}` and erasing at offset 1 restores `{1, 2, 3}`. -/
theorem C4_insert_erase_witness :
    SimpleVector.WF (SimpleVector.fromList [1, 2, 3]) ∧
    1 ≤ (SimpleVector.fromList [1, 2, 3]).size ∧
    ((SimpleVector.Erase
        (SimpleVector.InsertImpl (SimpleVector.fromList [1, 2, 3]) 1 9).1 1).1.size =
      (SimpleVector.fromList [1, 2, 3]).size ∧
      SimpleVector.elems (SimpleVector.Erase
        (SimpleVector.InsertImpl (SimpleVector.fromList [1, 2, 3]) 1 9).1 1).1 =
      SimpleVector.elems (SimpleVector.fromList [1, 2, 3])) :=
  ⟨by decide, by decide,
    C4_insert_erase_inverse (SimpleVector.fromList [1, 2, 3]) 1 9
      (by decide) (by decide)⟩

/-- Claim C5: `Resize(newSize)` with `newSize ≤ size` truncates logically
(buffer and capacity untouched); with `size < newSize ≤ capacity` it keeps
the existing elements, default-fills the newly exposed slots and keeps the
capacity; with `newSize > capacity` it sets the capacity to
`max(newSize, 2 * old capacity)`, keeps the existing elements and
default-fills indices `[old size, newSize)`. -/
theorem C5_resize_spec {α : Type} [Inhabited α] (v : SimpleVector α)
    (n : Nat) (hWF : SimpleVector.WF v) :
    (n ≤ v.size →
      (SimpleVector.Resize v n).size = n ∧
      (SimpleVector.Resize v n).capacity = v.capacity ∧
      (SimpleVector.Resize v n).data = v.data ∧
      SimpleVector.elems (SimpleVector.Resize v n) =
        (SimpleVector.elems v).take n) ∧
    (v.size < n → n ≤ v.capacity →
      (SimpleVector.Resize v n).size = n ∧
      (SimpleVector.Resize v n).capacity = v.capacity ∧
      SimpleVector.elems (SimpleVector.Resize v n) =
        SimpleVector.elems v ++ List.replicate (n - v.size) default) ∧
    (v.capacity < n →
      (SimpleVector.Resize v n).size = n ∧
      (SimpleVector.Resize v n).capacity = max n (2 * v.capacity) ∧
      SimpleVector.elems (SimpleVector.Resize v n) =
        SimpleVector.elems v ++ List.replicate (n - v.size) default) := by
  have hsc := hWF.1
  refine ⟨?_, ?_, ?_⟩
  · intro ha
    refine ⟨SimpleVector.resize_size n, SimpleVector.resize_capacity_le n (by omega),
      ?_, SimpleVector.resize_elems_truncate n ha⟩
    rw [SimpleVector.resize_truncate_eq ha]
  · intro hb1 hb2
    exact ⟨SimpleVector.resize_size n, SimpleVector.resize_capacity_le n hb2,
      SimpleVector.resize_elems_ext n hWF hb1⟩
  · intro hc
    refine ⟨SimpleVector.resize_size n, ?_,
      SimpleVector.resize_elems_ext n hWF (by omega)⟩
    rw [SimpleVector.resize_capacity_grow n hWF hc, Nat.mul_comm]

/-- Claim C5, witness at a concrete input: `Resize(1)` on `{1, 2}`. -/
theorem C5_resize_witness :
    SimpleVector.WF (SimpleVector.fromList [1, 2]) ∧
    ((1 ≤ (SimpleVector.fromList [1, 2]).size →
      (SimpleVector.Resize (SimpleVector.fromList [1, 2]) 1).size = 1 ∧
      (SimpleVector.Resize (SimpleVector.fromList [1, 2]) 1).capacity =
        (SimpleVector.fromList [1, 2]).capacity ∧
      (SimpleVector.Resize (SimpleVector.fromList [1, 2]) 1).data =
        (SimpleVector.fromList [1, 2]).data ∧
      SimpleVector.elems (SimpleVector.Resize (SimpleVector.fromList [1, 2]) 1) =
        (SimpleVector.elems (SimpleVector.fromList [1, 2])).take 1) ∧
    ((SimpleVector.fromList [1, 2]).size < 1 →
      1 ≤ (SimpleVector.fromList [1, 2]).capacity →
      (SimpleVector.Resize (SimpleVector.fromList [1, 2]) 1).size = 1 ∧
      (SimpleVector.Resize (SimpleVector.fromList [1, 2]) 1).capacity =
        (SimpleVector.fromList [1, 2]).capacity ∧
      SimpleVector.elems (SimpleVector.Resize (SimpleVector.fromList [1, 2]) 1) =
        SimpleVector.elems (SimpleVector.fromList [1, 2]) ++
          List.replicate (1 - (SimpleVector.fromList [1, 2]).size) default) ∧
    ((SimpleVector.fromList [1, 2]).capacity < 1 →
      (SimpleVector.Resize (SimpleVector.fromList [1, 2]) 1).size = 1 ∧
      (SimpleVector.Resize (SimpleVector.fromList [1, 2]) 1).capacity =
        max 1 (2 * (SimpleVector.fromList [1, 2]).capacity) ∧
      SimpleVector.elems (SimpleVector.Resize (SimpleVector.fromList [1, 2]) 1) =
        SimpleVector.elems (SimpleVector.fromList [1, 2]) ++
          List.replicate (1 - (SimpleVector.fromList [1, 2]).size) default)) :=
  ⟨by decide, C5_resize_spec (SimpleVector.fromList [1, 2]) 1 (by decide)⟩

/-- Claim C6: `At(i)` raises the out-of-range error condition exactly when
`i ≥ size`; for `i < size` it returns the `i`-th element of the sequence;
and the call never changes the vector (size, capacity or elements). -/
theorem C6_at_spec {α : Type} [Inhabited α] (v : SimpleVector α) (i : Nat) :
    ((SimpleVector.At v i).2 = Except.error "Index out of range" ↔ v.size ≤ i) ∧
    (i < v.size →
      (SimpleVector.At v i).2 =
        Except.ok ((SimpleVector.elems v).getD i default)) ∧
    (SimpleVector.At v i).1 = v := by
  refine ⟨⟨?_, ?_⟩, ?_, SimpleVector.at_fst v i⟩
  · intro he
    by_contra hlt
    rw [SimpleVector.at_lt (by omega)] at he
    simp at he
  · intro hge
    rw [SimpleVector.at_ge hge]
  · intro hlt
    rw [SimpleVector.at_lt hlt]

/-- Claim C7: the invariant `size ≤ capacity` (together with the buffer
holding exactly `capacity` slots) holds for every vector reachable from
any constructor by any sequence of the public operations, each used under
its precondition. -/
theorem C7_invariant {α : Type} [Inhabited α] (v : SimpleVector α)
    (h : Reachable v) : SimpleVector.WF v := by
  induction h with
  | ctor_default => exact SimpleVector.WF_defaultCtor
  | ctor_reserve n => exact SimpleVector.WF_reserveCtor n
  | ctor_size n => exact SimpleVector.WF_fromSize n
  | ctor_fill n x => exact SimpleVector.WF_fromSizeValue n x
  | ctor_list l => exact SimpleVector.WF_fromList l
  | ctor_copy _ ih => exact SimpleVector.WF_copyCtor ih
  | ctor_move_dst _ ih => exact SimpleVector.WF_moveCtor_dst ih
  | ctor_move_src _ _ => exact SimpleVector.WF_moveCtor_src _
  | assign_copy _ _ _ ihw => exact SimpleVector.WF_copyAssign ihw
  | assign_move_dst _ _ _ ihw => exact SimpleVector.WF_moveAssign_dst ihw
  | assign_move_src _ _ ihv _ => exact SimpleVector.WF_moveAssign_src ihv
  | op_reserve n _ ih => exact SimpleVector.WF_reserve n ih
  | op_resize n _ ih => exact SimpleVector.WF_resize n ih
  | op_clear _ ih => exact SimpleVector.WF_clear ih
  | op_push x _ ih => exact SimpleVector.WF_pushBack x ih
  | op_pop _ _ ih => exact SimpleVector.WF_popBack ih
  | op_insert k x _ hks ih => exact SimpleVector.WF_insert k x ih hks
  | op_erase k _ hks ih => exact SimpleVector.WF_erase k ih hks
  | op_swap_fst _ _ _ ihw => exact SimpleVector.WF_swap_fst ihw
  | op_swap_snd _ _ ihv _ => exact SimpleVector.WF_swap_snd ihv

/-- Claim C7, witness at a concrete reachable state: the vector obtained
by pushing `3` onto a default-constructed vector satisfies the
invariant. -/
theorem C7_invariant_witness :
    SimpleVector.WF (SimpleVector.PushBack (SimpleVector.defaultCtor Nat) 3) :=
  C7_invariant _ (Reachable.op_push 3 Reachable.ctor_default)

/-- Claim C8: copy construction yields a deep, independent copy: the
copy's elements equal the source's, its capacity equals its size, and
mutating the copy — writing an element through `operator[]` or growing it
with `PushBack` — never changes the source's size, capacity or elements
(stated over the heap-level model, where buffer aliasing is visible). -/
theorem C8_copy_independent {α : Type} [Inhabited α] (h : List (List α))
    (v : HSimpleVector) (i : Nat) (x : α) (hbuf : v.buf < h.length)
    (hsz : v.size ≤ (hdata h v).length) :
    (hcopyCtor h v).2.capacity = (hcopyCtor h v).2.size ∧
    helems (hcopyCtor h v).1 (hcopyCtor h v).2 = helems h v ∧
    helems (hsetElem (hcopyCtor h v).1 (hcopyCtor h v).2 i x) v = helems h v ∧
    helems (hpushBack (hcopyCtor h v).1 (hcopyCtor h v).2 x).1 v = helems h v := by
  have hne : (hcopyCtor h v).2.buf ≠ v.buf := by
    show h.length ≠ v.buf
    omega
  refine ⟨rfl, helems_hcopyCtor h v hsz, ?_, ?_⟩
  · unfold hsetElem
    rw [helems_after_set _ _ _ _ hne]
    exact helems_after_append h _ v hbuf
  · unfold hpushBack
    have hcond : (hcopyCtor h v).2.size ≥ (hcopyCtor h v).2.capacity :=
      Nat.le_refl _
    rw [if_pos hcond]
    simp only
    have h1 : v.buf < ((hcopyCtor h v).1).length := by
      show v.buf < (h ++ [_]).length
      simp only [List.length_append, List.length_cons, List.length_nil]
      omega
    rw [helems_after_append _ _ _ h1]
    exact helems_after_append h _ v hbuf

/-- Claim C8, witness at a concrete input: the heap holding the single
buffer `[1, 2]`, a vector of size 2 pointing at it, an element write at
index 0 and a push of `9` on the copy. -/
theorem C8_copy_independent_witness :
    (0 : Nat) < ([[1, 2]] : List (List Nat)).length ∧
    (⟨2, 2, 0⟩ : HSimpleVector).size ≤ (hdata [[1, 2]] ⟨2, 2, 0⟩).length ∧
    ((hcopyCtor [[1, 2]] (⟨2, 2, 0⟩ : HSimpleVector)).2.capacity =
        (hcopyCtor [[1, 2]] (⟨2, 2, 0⟩ : HSimpleVector)).2.size ∧
      helems (hcopyCtor [[1, 2]] (⟨2, 2, 0⟩ : HSimpleVector)).1
          (hcopyCtor [[1, 2]] (⟨2, 2, 0⟩ : HSimpleVector)).2 =
        helems [[1, 2]] ⟨2, 2, 0⟩ ∧
      helems (hsetElem (hcopyCtor [[1, 2]] (⟨2, 2, 0⟩ : HSimpleVector)).1
          (hcopyCtor [[1, 2]] (⟨2, 2, 0⟩ : HSimpleVector)).2 0 9) ⟨2, 2, 0⟩ =
        helems [[1, 2]] ⟨2, 2, 0⟩ ∧
      helems (hpushBack (hcopyCtor [[1, 2]] (⟨2, 2, 0⟩ : HSimpleVector)).1
          (hcopyCtor [[1, 2]] (⟨2, 2, 0⟩ : HSimpleVector)).2 9).1 ⟨2, 2, 0⟩ =
        helems [[1, 2]] ⟨2, 2, 0⟩) :=
  ⟨by decide, by decide,
    C8_copy_independent [[1, 2]] ⟨2, 2, 0⟩ 0 9 (by decide) (by decide)⟩

/-- Claim C9: `Clear` sets the size to 0 and leaves the capacity and the
allocated buffer exactly as they were. -/
theorem C9_clear_spec {α : Type} [Inhabited α] (v : SimpleVector α) :
    (SimpleVector.Clear v).size = 0 ∧
    (SimpleVector.Clear v).capacity = v.capacity ∧
    (SimpleVector.Clear v).data = v.data :=
  ⟨rfl, rfl, rfl⟩

/-- Claim C10: the two `SimpleVector` implementations
(`src/simple-vector/simple_vector.h` and `src/unnamed/part_001`) are
observationally equivalent: starting from any well-formed state, any
sequence of public operations (each meeting its precondition) produces
the same returned values and the same final state — hence the same size,
capacity and element sequence — under both implementations. -/
theorem C10_observational_equivalence {α : Type} [Inhabited α]
    (v : SimpleVector α) (ops : List (Op α)) (hWF : SimpleVector.WF v)
    (hvalid : validOps v ops = true) : run1 v ops = run2 v ops :=
  (run2_eq_run1 ops v hWF hvalid).symm

/-- Claim C10, witness at a concrete input: the spec's end-to-end
scenario (three pushes, an insert, an erase) followed by a checked read,
a resize, a reserve, a pop and a clear, starting from the
default-constructed vector. -/
theorem C10_observational_equivalence_witness :
    SimpleVector.WF (SimpleVector.defaultCtor Nat) ∧
    validOps (SimpleVector.defaultCtor Nat)
      [Op.push 1, Op.push 2, Op.push 3, Op.insert 1 99, Op.erase 2,
        Op.atIdx 0, Op.resize 5, Op.reserve 9, Op.pop, Op.clear] = true ∧
    run1 (SimpleVector.defaultCtor Nat)
      [Op.push 1, Op.push 2, Op.push 3, Op.insert 1 99, Op.erase 2,
        Op.atIdx 0, Op.resize 5, Op.reserve 9, Op.pop, Op.clear] =
    run2 (SimpleVector.defaultCtor Nat)
      [Op.push 1, Op.push 2, Op.push 3, Op.insert 1 99, Op.erase 2,
        Op.atIdx 0, Op.resize 5, Op.reserve 9, Op.pop, Op.clear] :=
  ⟨by decide, by decide,
    C10_observational_equivalence (SimpleVector.defaultCtor Nat)
      [Op.push 1, Op.push 2, Op.push 3, Op.insert 1 99, Op.erase 2,
        Op.atIdx 0, Op.resize 5, Op.reserve 9, Op.pop, Op.clear]
      (by decide) (by decide)⟩
